import Mathlib

/-!
Verification of the `domain_changer` library: a text rewriter that replaces
the hosts of recognised URLs by privacy-frontend hosts.

The development embeds the five Rust source files
(`src/lib.rs`, `src/types/domain.rs`, `src/types/config.rs`,
`src/types/errors.rs`, `src/types/traits.rs`) as executable Lean
definitions.  The library depends on the third-party `url` crate for URL
parsing; that crate is not part of the repository, so a `Url` model is
built here from the specification's description of URL handling
(absolute WHATWG-style URLs over ASCII input).  All repository functions
(`parse_string`, `extract_old_domains`, `Domain::contain`,
`Domain::try_from`, `Config::contain`, ...) are translated line by line
from the Rust source on top of that model.
-/

namespace DomainChanger

/-- ASCII whitespace, as in Rust's `char::is_ascii_whitespace`:
space, tab, newline, form feed, carriage return. -/
def isAsciiWhitespace (c : Char) : Bool :=
  c == ' ' || c == '\t' || c == '\n' || c == '\x0c' || c == '\r'

/-- Split a character list at every ASCII-whitespace character,
keeping the (possibly empty) chunks. -/
def splitWsAux : List Char → List Char → List String
  | [], acc => [String.mk acc.reverse]
  | c :: cs, acc =>
    if isAsciiWhitespace c then String.mk acc.reverse :: splitWsAux cs []
    else splitWsAux cs (c :: acc)

/-- Rust's `str::split_ascii_whitespace`: the maximal non-empty runs of
non-whitespace characters, in order. -/
def splitAsciiWhitespace (s : String) : List String :=
  (splitWsAux s.data []).filter (fun w => !(w == ""))

/-- Rust's `Vec::join(" ")`: interleave a single space between the items. -/
def joinSpace : List String → String
  | [] => ""
  | [w] => w
  | w :: ws => w ++ " " ++ joinSpace ws

/-- Whether the first list is an initial segment of the second. -/
def listIsPre : List Char → List Char → Bool
  | [], _ => true
  | _ :: _, [] => false
  | a :: as, b :: bs => a == b && listIsPre as bs

/-- Rust's `str::starts_with` on string literals. -/
def strStartsWith (s pre : String) : Bool :=
  listIsPre pre.data s.data

/-- ASCII lowercasing of a string, as applied to schemes and domains. -/
def lowerStr (s : String) : String :=
  String.mk (s.data.map Char.toLower)

/-- Modelled from the spec: the WHATWG "special" schemes, whose URLs
always carry a host and use domain host parsing. -/
def isSpecialScheme (s : String) : Bool :=
  s == "http" || s == "https" || s == "ws" || s == "wss" || s == "ftp" || s == "file"

/-- Modelled from the spec: characters that may not occur in a host
(whitespace, separators and bracketing characters). -/
def forbiddenHostChar (c : Char) : Bool :=
  c == '\x00' || c == '\t' || c == '\n' || c == '\r' || c == ' ' || c == '#' ||
  c == '/' || c == ':' || c == '<' || c == '>' || c == '?' || c == '@' ||
  c == '[' || c == '\\' || c == ']' || c == '^' || c == '|'

/-- Modelled from the spec: a host string is well-formed when it is
non-empty and free of forbidden host characters. -/
def validHost (h : String) : Bool :=
  !(h == "") && h.data.all (fun c => !forbiddenHostChar c)

/-- First character of a URL scheme: an ASCII letter. -/
def isSchemeStartChar (c : Char) : Bool := c.isAlpha

/-- Subsequent characters of a URL scheme. -/
def isSchemeChar (c : Char) : Bool :=
  c.isAlphanum || c == '+' || c == '-' || c == '.'

/-- Split a character list at the first occurrence of `sep`:
`some (before, after)`, or `none` when `sep` does not occur. -/
def splitFirstAt (sep : Char) (cs : List Char) : Option (List Char × List Char) :=
  let pre := cs.takeWhile (fun c => c != sep)
  if pre.length == cs.length then none
  else some (pre, cs.drop (pre.length + 1))

/-- Split a character list at the last occurrence of `sep`:
`some (before, after)`, or `none` when `sep` does not occur. -/
def splitLastAt (sep : Char) (cs : List Char) : Option (List Char × List Char) :=
  let revAfter := cs.reverse.takeWhile (fun c => c != sep)
  if revAfter.length == cs.length then none
  else some (cs.take (cs.length - revAfter.length - 1), revAfter.reverse)

/-- Modelled from the spec: split off the scheme of an absolute URL.
The characters before the first `:` must form a valid scheme name;
returns the scheme characters and the remainder after the colon. -/
def schemeSplit (cs : List Char) : Option (List Char × List Char) :=
  let pre := cs.takeWhile (fun c => c != ':')
  if pre.length == cs.length then none
  else
    match pre with
    | [] => none
    | c :: rest =>
      if isSchemeStartChar c && rest.all isSchemeChar then
        some (pre, cs.drop (pre.length + 1))
      else none

/-- Modelled from the spec: a parsed absolute URL, as held by the `url`
crate: scheme, optional userinfo, optional host, optional port, path,
optional query and optional fragment.  Hosts are plain (already
validated) strings; URLs without a host are the "cannot be a base"
non-special URLs such as `mailto:` addresses. -/
structure Url where
  scheme : String
  userinfo : Option String
  host : Option String
  port : Option Nat
  path : String
  query : Option String
  fragment : Option String
  deriving DecidableEq, Repr

/-- Default port of a special scheme, elided from parsed URLs. -/
def defaultPort (scheme : String) : Option Nat :=
  if scheme == "http" || scheme == "ws" then some 80
  else if scheme == "https" || scheme == "wss" then some 443
  else if scheme == "ftp" then some 21
  else none

/-- Parse the port digits of an authority: `some none` for an absent or
empty port, `some (some n)` for a valid numeric port, `none` on error. -/
def parsePort (cs : List Char) : Option (Option Nat) :=
  if cs.isEmpty then some none
  else if cs.all Char.isDigit then
    let n := cs.foldl (fun a c => a * 10 + (c.toNat - 48)) 0
    if n ≤ 65535 then some (some n) else none
  else none

/-- Modelled from the spec: parse the authority component
`[userinfo@]host[:port]` of a URL.  For special schemes the host is
ASCII-lowercased; the host must be a well-formed non-empty host. -/
def parseAuthority (special : Bool) (scheme : String) (cs : List Char) :
    Option (Option String × String × Option Nat) :=
  let uiHp : Option String × List Char :=
    match splitLastAt '@' cs with
    | some (u, hp) => (some (String.mk u), hp)
    | none => (none, cs)
  let hostPort : List Char × List Char :=
    match splitFirstAt ':' uiHp.2 with
    | some (h, p) => (h, p)
    | none => (uiHp.2, [])
  match parsePort hostPort.2 with
  | none => none
  | some port =>
    let port := if port == defaultPort scheme then none else port
    let host := if special then lowerStr (String.mk hostPort.1) else String.mk hostPort.1
    if validHost host then some (uiHp.1, host, port) else none

/-- Split the part of a URL after the authority into path, query and
fragment: the fragment follows the first `#`, the query the first `?`
before it. -/
def splitPQF (cs : List Char) : List Char × Option String × Option String :=
  let pqF : List Char × Option String :=
    match splitFirstAt '#' cs with
    | some (a, f) => (a, some (String.mk f))
    | none => (cs, none)
  let pQ : List Char × Option String :=
    match splitFirstAt '?' pqF.1 with
    | some (a, q) => (a, some (String.mk q))
    | none => (pqF.1, none)
  (pQ.1, pQ.2, pqF.2)

/-- Modelled from the spec: `url::Url::parse` on the ASCII fragment of
WHATWG URLs used by this library.  An absolute URL is a scheme followed
by `:`; special schemes (http, https, ...) then take an authority with a
mandatory non-empty host (after skipping any run of slashes), a path in
which backslashes act as slashes and which defaults to `/`, and optional
query and fragment.  Non-special schemes take an authority only after a
literal `//`; otherwise the URL has no host ("cannot be a base", e.g.
`mailto:user@example.com`).  Simplifications kept out of the model:
percent-decoding, IDNA, IPv4/IPv6 host forms and empty opaque hosts. -/
def Url.parse (s : String) : Option Url :=
  let cs0 := (s.data.dropWhile (fun c => c.toNat ≤ 32)).reverse.dropWhile
    (fun c => c.toNat ≤ 32)
  let cs := cs0.reverse.filter (fun c => !(c == '\t' || c == '\n' || c == '\r'))
  match schemeSplit cs with
  | none => none
  | some (schemeCs, rest) =>
    let scheme := lowerStr (String.mk schemeCs)
    if isSpecialScheme scheme then
      let afterSlashes := rest.dropWhile (fun c => c == '/' || c == '\\')
      let authority := afterSlashes.takeWhile
        (fun c => !(c == '/' || c == '\\' || c == '?' || c == '#'))
      let after := afterSlashes.drop authority.length
      match parseAuthority true scheme authority with
      | none => none
      | some (ui, host, port) =>
        let pqf := splitPQF after
        let path := String.mk (pqf.1.map (fun c => if c == '\\' then '/' else c))
        let path := if path == "" then "/" else path
        some { scheme := scheme, userinfo := ui, host := some host, port := port,
               path := path, query := pqf.2.1, fragment := pqf.2.2 }
    else
      match rest with
      | '/' :: '/' :: rest2 =>
        let authority := rest2.takeWhile (fun c => !(c == '/' || c == '?' || c == '#'))
        let after := rest2.drop authority.length
        match parseAuthority false scheme authority with
        | none => none
        | some (ui, host, port) =>
          let pqf := splitPQF after
          some { scheme := scheme, userinfo := ui, host := some host, port := port,
                 path := String.mk pqf.1, query := pqf.2.1, fragment := pqf.2.2 }
      | _ =>
        let pqf := splitPQF rest
        some { scheme := scheme, userinfo := none, host := none, port := none,
               path := String.mk pqf.1, query := pqf.2.1, fragment := pqf.2.2 }

/-- Modelled from the spec: `url::Url::as_str`, the serialisation of a
URL back to a string. -/
def Url.toString (u : Url) : String :=
  u.scheme ++ ":" ++
  (match u.host with
   | some h =>
     "//" ++ (match u.userinfo with | some ui => ui ++ "@" | none => "") ++ h ++
     (match u.port with | some p => ":" ++ Nat.repr p | none => "")
   | none => "") ++
  u.path ++
  (match u.query with | some q => "?" ++ q | none => "") ++
  (match u.fragment with | some f => "#" ++ f | none => "")

/-- Modelled from the spec: `url::Url::set_host`.  Setting a host on a
host-less ("cannot be a base") non-special URL fails; removing the host
of a special-scheme URL fails; otherwise the given host string must be a
well-formed host and replaces the URL's host (lowercased, as at the only
call site the URL's scheme is http or https). -/
def Url.set_host (u : Url) (h : Option String) : Option Url :=
  match h with
  | none =>
    if isSpecialScheme u.scheme then none else some { u with host := none }
  | some hs =>
    if u.host == none && !(isSpecialScheme u.scheme) then none
    else if validHost hs then some { u with host := some (lowerStr hs) }
    else none

/-- Rust's `Url::host_str` in the model: the optional host. -/
def Url.host_str (u : Url) : Option String := u.host

/-- Rust's `Url::has_host` in the model. -/
def Url.has_host (u : Url) : Bool := u.host.isSome

/-- A URL value is well-formed when its host, if present, is a valid
host string, and when a special scheme always carries a host.  Every
URL held by a Rust `url::Url` satisfies this type invariant. -/
def Url.wf (u : Url) : Bool :=
  match u.host with
  | some h => validHost h
  | none => !(isSpecialScheme u.scheme)

/-- `src/types/errors.rs`: the two error kinds of the library. -/
inductive DomainChangerError where
  | InvalidOldDomain (msg : String)
  | InvalidNewDomain (msg : String)
  deriving DecidableEq, Repr

/-- `src/types/errors.rs`: `DomainChangerError::is_invalid_old_domain`. -/
def DomainChangerError.is_invalid_old_domain : DomainChangerError → Bool
  | .InvalidOldDomain _ => true
  | _ => false

/-- `src/types/errors.rs`: `DomainChangerError::is_invalid_new_domain`. -/
def DomainChangerError.is_invalid_new_domain : DomainChangerError → Bool
  | .InvalidNewDomain _ => true
  | _ => false

/-- `src/types/domain.rs`: a rewrite rule, an `old` URL to be replaced
by a `new` URL. -/
structure Domain where
  old : Url
  new : Url
  deriving DecidableEq, Repr

/-- `src/types/domain.rs`: the token normalisation inside
`Domain::contain` — tokens not already starting with `http://` or
`https://` get `https://` prepended before URL parsing. -/
def normalizeToken (word : String) : String :=
  if strStartsWith word "https://" || strStartsWith word "http://" then word
  else "https://" ++ word

/-- `src/types/domain.rs`: `Domain::contain`.  Parse the normalised
token; on success, return the parsed URL when the token's host equals
the entry's old host, or — when `just_old` is false — the entry's new
host. -/
def Domain.contain (d : Domain) (word : String) (just_old : Bool) : Option Url :=
  match Url.parse (normalizeToken word) with
  | none => none
  | some url =>
    match url.host_str with
    | none => none
    | some str_host =>
      if (d.old.has_host = true ∧ d.old.host_str = some str_host) ∨
         ((!just_old) = true ∧ d.new.has_host = true ∧ d.new.host_str = some str_host) then
        some url
      else none

/-- `src/types/domain.rs`: `Domain::try_from((&str, &str))`.  Parse the
old string, on failure report `InvalidOldDomain`; then parse the new
string, on failure report `InvalidNewDomain`. -/
def Domain.tryFrom (domains : String × String) : Except DomainChangerError Domain :=
  match Url.parse domains.1 with
  | none =>
    .error (.InvalidOldDomain ("'" ++ domains.1 ++ "', is invalid old domain"))
  | some oldUrl =>
    match Url.parse domains.2 with
    | none =>
      .error (.InvalidNewDomain ("'" ++ domains.2 ++ "', is invalid new domain"))
    | some newUrl => .ok { old := oldUrl, new := newUrl }

/-- `src/types/config.rs`: the mapping table, an ordered list of
`Domain` entries. -/
structure Config where
  domains : List Domain
  deriving DecidableEq, Repr

/-- `src/types/config.rs`: `Config::old_hosts`. -/
def Config.old_hosts (c : Config) : List String :=
  c.domains.filterMap (fun d => d.old.host_str)

/-- `src/types/config.rs`: `Config::new_hosts`. -/
def Config.new_hosts (c : Config) : List String :=
  c.domains.filterMap (fun d => d.new.host_str)

/-- `src/types/config.rs`: `Config::get_by_old`. -/
def Config.get_by_old (c : Config) (old_host : String) : Option Domain :=
  c.domains.find? (fun d =>
    match d.old.host_str with
    | some h => h == old_host
    | none => false)

/-- `src/types/config.rs`: `Config::contain` — the first entry of the
table whose `Domain::contain` succeeds on the word. -/
def Config.contain (c : Config) (word : String) (just_old : Bool) : Option Domain :=
  c.domains.find? (fun d => (d.contain word just_old).isSome)

/-- `src/lib.rs`: the per-token loop body of `parse_string`.  Scan the
table; on a match whose new URL has a host, replace the matched URL's
host by it (`set_host` + `unwrap`) and emit the serialised URL; a match
whose new URL has no host falls through to the next entry; with no
match the word is emitted unchanged.  `none` models a panic of the
`unwrap` on `set_host`. -/
def processWord (domains : List Domain) (word : String) : Option String :=
  match domains with
  | [] => some word
  | d :: rest =>
    match d.contain word true with
    | some url =>
      match d.new.host_str with
      | some new_host =>
        match url.set_host (some new_host) with
        | some u => some u.toString
        | none => none
      | none => processWord rest word
    | none => processWord rest word

/-- The token-wise map of `parse_string` (`.map(...).collect()`), with
`none` propagating a panic of any token. -/
def processWords (domains : List Domain) : List String → Option (List String)
  | [] => some []
  | w :: ws =>
    match processWord domains w, processWords domains ws with
    | some v, some vs => some (v :: vs)
    | _, _ => none

/-- `src/lib.rs`: `parse_string`.  Empty text is returned unchanged;
otherwise the text is split on ASCII whitespace, every token is
processed against the table, and the results are joined with single
spaces.  `none` models a panic. -/
def parse_string (config : Config) (text : String) : Option String :=
  if !(text == "") then
    (processWords config.domains (splitAsciiWhitespace text)).map joinSpace
  else some text

/-- `src/lib.rs`: `extract_old_domains` — the first matching entry of
every token that has one, in token order. -/
def extract_old_domains (config : Config) (text : String) : List Domain :=
  (splitAsciiWhitespace text).filterMap (fun word => Config.contain config word true)

/-- `Domain::wf`: both URLs of the entry satisfy the `Url` invariant. -/
def Domain.wf (d : Domain) : Bool := d.old.wf && d.new.wf

/-- `Config::wf`: every entry of the table satisfies the invariant. -/
def Config.wf (c : Config) : Bool := c.domains.all Domain.wf

/-- Specification-side find-first: the first entry of the list whose
`contain` check succeeds on the word. -/
def firstMatch (word : String) (just_old : Bool) : List Domain → Option Domain
  | [] => none
  | d :: ds =>
    if (d.contain word just_old).isSome then some d
    else firstMatch word just_old ds

/-- Specification-side find-first among rewritable entries: the first
entry whose old host matches the word and whose new URL has a host. -/
def firstRewritable (word : String) : List Domain → Option Domain
  | [] => none
  | d :: ds =>
    if (d.contain word true).isSome && d.new.host_str.isSome then some d
    else firstRewritable word ds

/-- Specification-side rewrite of a token by a given entry: serialise
the parsed token with only its host replaced by the entry's new host
(lowercased), keeping scheme, userinfo, port, path, query and fragment;
when the entry does not match or has no new host, the token itself. -/
def rewriteWith (word : String) (d : Domain) : String :=
  match d.contain word true, d.new.host_str with
  | some url, some h => Url.toString { url with host := some (lowerStr h) }
  | _, _ => word

/-- Specification-side per-token rewrite: leave the token unchanged
unless some entry's old host matches it and that entry's new URL has a
host; the first such entry rewrites the token. -/
def specRewriteToken (domains : List Domain) (word : String) : String :=
  match firstRewritable word domains with
  | none => word
  | some d => rewriteWith word d

/-- The per-token transform claimed by the specification sentence of
claim C1, read literally: the token is rewritten by the first table
entry whose old host matches it (whether or not that entry's new URL
has a host). -/
def claimOneToken (domains : List Domain) (word : String) : String :=
  match firstMatch word true domains with
  | none => word
  | some d => rewriteWith word d

/-- A token whose host is one of the table's new hosts and none of its
old hosts. -/
def tokenOnlyNewHost (c : Config) (word : String) : Bool :=
  match Url.parse (normalizeToken word) with
  | some url =>
    match url.host_str with
    | some h => decide (h ∈ c.new_hosts ∧ h ∉ c.old_hosts)
    | none => false
  | none => false

/-- An https URL literal with the given host and root path. -/
def urlHttps (h : String) : Url :=
  { scheme := "https", userinfo := none, host := some h, port := none,
    path := "/", query := none, fragment := none }

/-- The host-less URL `mailto:a@b.c`, exactly the value `Url.parse`
returns on that string. -/
def mailtoUrl : Url :=
  { scheme := "mailto", userinfo := none, host := none, port := none,
    path := "a@b.c", query := none, fragment := none }

/-- `Domain.contain` characterised: it returns a URL exactly when the
normalised token parses to that URL, the URL has a host, and that host
equals the entry's old host or — when `just_old` is false — the entry's
new host. -/
theorem Domain.contain_characterization (d : Domain) (w : String) (b : Bool) (u : Url) :
    d.contain w b = some u ↔
      Url.parse (normalizeToken w) = some u ∧
        ∃ h, u.host = some h ∧
          (d.old.host = some h ∨ (b = false ∧ d.new.host = some h)) := by
  cases hp : Url.parse (normalizeToken w) with
  | none => simp [Domain.contain, hp]
  | some url =>
    cases hh : url.host with
    | none =>
      simp only [Domain.contain, hp, Url.host_str, hh]
      constructor
      · intro hF; cases hF
      · rintro ⟨hu, h, hh2, _⟩
        cases hu
        rw [hh] at hh2
        cases hh2
    | some str_host =>
      simp only [Domain.contain, hp, Url.host_str, Url.has_host, hh]
      split_ifs with hP
      · constructor
        · intro he
          cases he
          refine ⟨rfl, str_host, hh, ?_⟩
          rcases hP with ⟨_, ho⟩ | ⟨hb, _, hn⟩
          · exact Or.inl ho
          · exact Or.inr ⟨by simpa using hb, hn⟩
        · rintro ⟨hu, _, _, _⟩
          cases hu
          rfl
      · constructor
        · intro hF; cases hF
        · rintro ⟨hu, h, hh2, hcase⟩
          cases hu
          rw [hh] at hh2
          cases hh2
          exfalso
          apply hP
          rcases hcase with ho | ⟨hb, hn⟩
          · exact Or.inl ⟨by simp [Url.has_host, ho], ho⟩
          · exact Or.inr ⟨by simp [hb], by simp [Url.has_host, hn], hn⟩

/-- A URL returned by `Domain.contain` always has a host. -/
theorem Domain.contain_host_isSome (d : Domain) (w : String) (b : Bool) (u : Url)
    (hc : d.contain w b = some u) : u.host.isSome = true := by
  rcases (Domain.contain_characterization d w b u).mp hc with ⟨_, h, hh, _⟩
  simp [hh]

/-- A well-formed URL's host is a valid host string. -/
theorem Url.wf_host (u : Url) (h : String) (hwf : u.wf = true)
    (hh : u.host = some h) : validHost h = true := by
  unfold Url.wf at hwf
  rw [hh] at hwf
  exact hwf

/-- `set_host` succeeds on a URL that has a host when given a valid
host string, and replaces just the host (lowercased). -/
theorem Url.set_host_of_valid (u : Url) (h : String)
    (hu : u.host.isSome = true) (hv : validHost h = true) :
    u.set_host (some h) = some { u with host := some (lowerStr h) } := by
  unfold Url.set_host
  have h0 : (u.host == none) = false := by
    cases hx : u.host
    · rw [hx] at hu; cases hu
    · simp
  rw [h0]
  simp [hv]

/-- `Config.contain` is the specification-side find-first scan. -/
theorem find_eq_firstMatch (w : String) (b : Bool) :
    ∀ ds : List Domain,
      ds.find? (fun d => (d.contain w b).isSome) = firstMatch w b ds := by
  intro ds
  induction ds with
  | nil => rfl
  | cons d ds ih =>
    rw [firstMatch]
    cases hb : ((d.contain w b).isSome : Bool) with
    | true => simp [List.find?, hb]
    | false => simp [List.find?, hb, ih]

/-- `Config.contain` equals the find-first scan of the table. -/
theorem Config.contain_eq_firstMatch (c : Config) (w : String) (b : Bool) :
    Config.contain c w b = firstMatch w b c.domains :=
  find_eq_firstMatch w b c.domains

/-- The find-first scan returns nothing exactly when no entry of the
table matches. -/
theorem firstMatch_eq_none_iff (w : String) (b : Bool) :
    ∀ ds : List Domain,
      firstMatch w b ds = none ↔ ∀ d ∈ ds, d.contain w b = none := by
  intro ds
  induction ds with
  | nil => simp [firstMatch]
  | cons d ds ih =>
    rw [firstMatch]
    by_cases h : ((d.contain w b).isSome : Bool) = true
    · rw [if_pos h]
      constructor
      · intro hF; cases hF
      · intro hall
        have := hall d (by simp)
        rw [this] at h
        cases h
    · rw [if_neg h]
      have hd : d.contain w b = none := by
        cases hc : d.contain w b
        · rfl
        · rw [hc] at h; simp at h
      rw [ih, List.forall_mem_cons]
      simp [hd]

/-- The find-first scan returns an entry exactly when it occurs in the
table, matches, and every earlier entry fails to match. -/
theorem firstMatch_eq_some_iff (w : String) (b : Bool) (e : Domain) :
    ∀ ds : List Domain,
      firstMatch w b ds = some e ↔
        ∃ i : Nat, ds[i]? = some e ∧ (e.contain w b).isSome = true ∧
          ∀ (j : Nat) (d' : Domain), j < i → ds[j]? = some d' →
            d'.contain w b = none := by
  intro ds
  induction ds with
  | nil =>
    rw [firstMatch]
    constructor
    · intro hF; cases hF
    · rintro ⟨i, hi, _⟩
      simp at hi
  | cons d ds ih =>
    rw [firstMatch]
    by_cases h : ((d.contain w b).isSome : Bool) = true
    · rw [if_pos h]
      constructor
      · intro he
        cases he
        refine ⟨0, by simp, h, ?_⟩
        intro j d' hj _
        exact absurd hj (Nat.not_lt_zero j)
      · rintro ⟨i, hi, he, hbefore⟩
        cases i with
        | zero => simp at hi; rw [hi]
        | succ k =>
          have h0 := hbefore 0 d (Nat.succ_pos k) (by simp)
          rw [h0] at h
          cases h
    · rw [if_neg h]
      have hd : d.contain w b = none := by
        cases hc : d.contain w b
        · rfl
        · rw [hc] at h; simp at h
      rw [ih]
      constructor
      · rintro ⟨i, hi, he, hbefore⟩
        refine ⟨i + 1, by simpa using hi, he, ?_⟩
        intro j d' hj hjd
        cases j with
        | zero =>
          simp at hjd
          rw [← hjd]
          exact hd
        | succ k =>
          exact hbefore k d' (by omega) (by simpa using hjd)
      · rintro ⟨i, hi, he, hbefore⟩
        cases i with
        | zero =>
          simp at hi
          rw [hi] at hd
          rw [hd] at he
          cases he
        | succ k =>
          refine ⟨k, by simpa using hi, he, ?_⟩
          intro j d' hj hjd
          exact hbefore (j + 1) d' (by omega) (by simpa using hjd)

/-- A token matched by no entry of the table passes through the
per-token loop unchanged. -/
theorem processWord_of_no_match (w : String) :
    ∀ ds : List Domain, (∀ d ∈ ds, d.contain w true = none) →
      processWord ds w = some w := by
  intro ds
  induction ds with
  | nil => intro _; rfl
  | cons d ds ih =>
    intro hall
    have hd := hall d (by simp)
    have hds : ∀ d' ∈ ds, d'.contain w true = none := by
      intro d' hd'
      exact hall d' (by simp [hd'])
    simp only [processWord, hd]
    exact ih hds

/-- Unfolding lemma: a non-rewritable head entry is skipped by the
specification-side token rewrite. -/
theorem specRewriteToken_cons_skip (d : Domain) (ds : List Domain) (w : String)
    (h : ¬ ((d.contain w true).isSome && d.new.host_str.isSome) = true) :
    specRewriteToken (d :: ds) w = specRewriteToken ds w := by
  unfold specRewriteToken
  rw [firstRewritable, if_neg h]

/-- Unfolding lemma: a rewritable head entry is taken by the
specification-side token rewrite. -/
theorem specRewriteToken_cons_take (d : Domain) (ds : List Domain) (w : String)
    (h : ((d.contain w true).isSome && d.new.host_str.isSome) = true) :
    specRewriteToken (d :: ds) w = rewriteWith w d := by
  unfold specRewriteToken
  rw [firstRewritable, if_pos h]

/-- The per-token loop of `parse_string` computes the specification-side
rewrite and never panics, for well-formed tables. -/
theorem processWord_eq_spec (w : String) :
    ∀ ds : List Domain, ds.all Domain.wf = true →
      processWord ds w = some (specRewriteToken ds w) := by
  intro ds
  induction ds with
  | nil => intro _; rfl
  | cons d ds ih =>
    intro hall
    rw [List.all_cons, Bool.and_eq_true] at hall
    obtain ⟨hd, hds⟩ := hall
    cases hc : d.contain w true with
    | none =>
      rw [specRewriteToken_cons_skip d ds w (by simp [hc])]
      simp only [processWord, hc]
      exact ih hds
    | some url =>
      cases hh : d.new.host_str with
      | none =>
        rw [specRewriteToken_cons_skip d ds w (by simp [hc, hh])]
        simp only [processWord, hc, hh]
        exact ih hds
      | some nh =>
        rw [specRewriteToken_cons_take d ds w (by simp [hc, hh])]
        have hhost : url.host.isSome = true :=
          Domain.contain_host_isSome d w true url hc
        have hvn : validHost nh = true := by
          apply Url.wf_host d.new nh
          · rw [Domain.wf, Bool.and_eq_true] at hd
            exact hd.2
          · exact hh
        have hset := Url.set_host_of_valid url nh hhost hvn
        have hrw : rewriteWith w d =
            Url.toString { url with host := some (lowerStr nh) } := by
          unfold rewriteWith
          rw [hc, hh]
        simp only [processWord, hc, hh, hset, hrw]

/-- Entries whose new URL has no host are invisible to the per-token
loop: it behaves as if they were filtered out of the table. -/
theorem processWord_skip_hostless (w : String) :
    ∀ ds : List Domain,
      processWord ds w =
        processWord (ds.filter (fun d => d.new.host_str.isSome)) w := by
  intro ds
  induction ds with
  | nil => rfl
  | cons d ds ih =>
    cases hn : d.new.host_str with
    | none =>
      have hf : (d :: ds).filter (fun d => d.new.host_str.isSome) =
          ds.filter (fun d => d.new.host_str.isSome) := by
        rw [List.filter_cons]
        simp [hn]
      rw [hf]
      cases hc : d.contain w true with
      | none => simp only [processWord, hc]; exact ih
      | some url => simp only [processWord, hc, hn]; exact ih
    | some nh =>
      have hf : (d :: ds).filter (fun d => d.new.host_str.isSome) =
          d :: ds.filter (fun d => d.new.host_str.isSome) := by
        rw [List.filter_cons]
        simp [hn]
      rw [hf]
      cases hc : d.contain w true with
      | none => simp only [processWord, hc]; exact ih
      | some url => simp only [processWord, hc, hn]

/-- Token-wise mapping: when every token is processed to a value, the
collected list is the map of those values. -/
theorem processWords_eq_map (ds : List Domain) (f : String → String) :
    ∀ ws : List String, (∀ w ∈ ws, processWord ds w = some (f w)) →
      processWords ds ws = some (ws.map f) := by
  intro ws
  induction ws with
  | nil => intro _; rfl
  | cons w ws ih =>
    intro hall
    have hw := hall w (by simp)
    have hws : ∀ w' ∈ ws, processWord ds w' = some (f w') := by
      intro w' hw'
      exact hall w' (by simp [hw'])
    simp only [processWords, hw, ih hws, List.map_cons]

/-- `parse_string` on non-empty text is the token-wise pipeline. -/
theorem parse_string_of_ne (c : Config) (text : String) (h : ¬ text = "") :
    parse_string c text =
      (processWords c.domains (splitAsciiWhitespace text)).map joinSpace := by
  unfold parse_string
  rw [if_pos]
  simp [h]

/-- Entry used by the claim C2 witness. -/
def d2W : Domain := { old := urlHttps "e.com", new := urlHttps "f.com" }

/-- C2: `Domain::contain` first normalises the token by prepending
`https://` when it does not start with `http://` or `https://`, then
parses it; parse failure gives absence; parse success returns the
parsed URL exactly when the entry's old URL has a host equal to the
token's host, or — when `just_old` is false — the entry's new URL has a
host equal to the token's host; otherwise absence. -/
theorem claim2_contain_matching (d : Domain) (w : String) (b : Bool) :
    (Url.parse (normalizeToken w) = none → d.contain w b = none) ∧
    (∀ u : Url, d.contain w b = some u ↔
      Url.parse (normalizeToken w) = some u ∧
        ∃ h, u.host = some h ∧
          (d.old.host = some h ∨ (b = false ∧ d.new.host = some h))) := by
  constructor
  · intro hp
    cases hc : d.contain w b with
    | none => rfl
    | some u =>
      rcases (Domain.contain_characterization d w b u).mp hc with ⟨hp2, _⟩
      rw [hp] at hp2
      cases hp2
  · intro u
    exact Domain.contain_characterization d w b u

/-- Witness for C2: a bare-domain token matching the old host of an
entry is returned as its normalised parsed URL. -/
theorem claim2_contain_matching_witness :
    Domain.contain d2W "e.com" true = some (urlHttps "e.com") :=
  ((claim2_contain_matching d2W "e.com" true).2 (urlHttps "e.com")).mpr
    ⟨by decide, "e.com", by decide, Or.inl (by decide)⟩

/-- Counterexample to C3 as stated: `Domain::try_from` accepts an old
string that parses as a URL with no host at all (`mailto:a@b.c`), so
construction does not require a non-empty host on both sides. -/
theorem claim3_counterexample :
    Domain.tryFrom ("mailto:a@b.c", "https://x.com/") =
      Except.ok { old := mailtoUrl, new := urlHttps "x.com" } ∧
    mailtoUrl.host = none := by
  constructor
  · rfl
  · rfl

/-- C3 as amended: `Domain::try_from` succeeds exactly when both strings
parse as URLs; the presence of a host is not checked. -/
theorem claim3_construction_amended (a b : String) :
    (∃ d : Domain, Domain.tryFrom (a, b) = Except.ok d) ↔
      ((Url.parse a).isSome = true ∧ (Url.parse b).isSome = true) := by
  cases hpa : Url.parse a with
  | none => simp [Domain.tryFrom, hpa]
  | some ua =>
    cases hpb : Url.parse b with
    | none => simp [Domain.tryFrom, hpa, hpb]
    | some ub => simp [Domain.tryFrom, hpa, hpb]

/-- Witness for the amended C3: two wellformed URL strings construct. -/
theorem claim3_construction_amended_witness :
    ∃ d : Domain,
      Domain.tryFrom ("https://w3.example/", "https://w4.example/") = Except.ok d :=
  (claim3_construction_amended "https://w3.example/" "https://w4.example/").mpr
    ⟨by decide, by decide⟩

/-- C5: `try_from` yields `InvalidOldDomain` exactly when the first
string does not parse, `InvalidNewDomain` exactly when the first parses
and the second does not; each message carries the offending input, and
the two kinds are distinguishable. -/
theorem claim5_error_taxonomy (a b : String) :
    ((∃ m, Domain.tryFrom (a, b) =
        Except.error (DomainChangerError.InvalidOldDomain m)) ↔
      Url.parse a = none) ∧
    ((∃ m, Domain.tryFrom (a, b) =
        Except.error (DomainChangerError.InvalidNewDomain m)) ↔
      ((Url.parse a).isSome = true ∧ Url.parse b = none)) ∧
    (Url.parse a = none →
      Domain.tryFrom (a, b) = Except.error (DomainChangerError.InvalidOldDomain
        ("'" ++ a ++ "', is invalid old domain"))) ∧
    ((Url.parse a).isSome = true → Url.parse b = none →
      Domain.tryFrom (a, b) = Except.error (DomainChangerError.InvalidNewDomain
        ("'" ++ b ++ "', is invalid new domain"))) ∧
    (∀ m m' : String,
      DomainChangerError.InvalidOldDomain m ≠ DomainChangerError.InvalidNewDomain m') := by
  have hlast : ∀ m m' : String,
      DomainChangerError.InvalidOldDomain m ≠ DomainChangerError.InvalidNewDomain m' := by
    intro m m' h
    cases h
  cases hpa : Url.parse a with
  | none =>
    refine ⟨?_, ?_, ?_, ?_, hlast⟩
    · simp [Domain.tryFrom, hpa]
    · simp [Domain.tryFrom, hpa]
    · intro _; simp [Domain.tryFrom, hpa]
    · intro hcontra; simp at hcontra
  | some ua =>
    cases hpb : Url.parse b with
    | none =>
      refine ⟨?_, ?_, ?_, ?_, hlast⟩
      · simp [Domain.tryFrom, hpa, hpb]
      · simp [Domain.tryFrom, hpa, hpb]
      · intro hcontra; simp at hcontra
      · intro _ _; simp [Domain.tryFrom, hpa, hpb]
    | some ub =>
      refine ⟨?_, ?_, ?_, ?_, hlast⟩
      · simp [Domain.tryFrom, hpa, hpb]
      · simp [Domain.tryFrom, hpa, hpb]
      · intro hcontra; simp at hcontra
      · intro _ hcontra; simp at hcontra

/-- Witness for C5: a malformed old string and a malformed new string
produce the two distinguishable errors with their messages. -/
theorem claim5_error_taxonomy_witness :
    Domain.tryFrom ("no scheme", "https://ok.example/") =
      Except.error (DomainChangerError.InvalidOldDomain
        "'no scheme', is invalid old domain") ∧
    Domain.tryFrom ("https://ok.example/", "still bad") =
      Except.error (DomainChangerError.InvalidNewDomain
        "'still bad', is invalid new domain") :=
  ⟨(claim5_error_taxonomy "no scheme" "https://ok.example/").2.2.1 (by decide),
   (claim5_error_taxonomy "https://ok.example/" "still bad").2.2.2.1
     (by decide) (by decide)⟩

/-- C10: when both strings fail to parse, the old-side error wins,
because the old string is validated first. -/
theorem claim10_old_error_wins (a b : String)
    (ha : Url.parse a = none) (_hb : Url.parse b = none) :
    Domain.tryFrom (a, b) = Except.error (DomainChangerError.InvalidOldDomain
      ("'" ++ a ++ "', is invalid old domain")) := by
  simp [Domain.tryFrom, ha]

/-- Witness for C10 at two concrete non-URL strings. -/
theorem claim10_old_error_wins_witness :
    Url.parse "!!!" = none ∧ Url.parse "???" = none ∧
    Domain.tryFrom ("!!!", "???") =
      Except.error (DomainChangerError.InvalidOldDomain
        "'!!!', is invalid old domain") :=
  ⟨by decide, by decide, claim10_old_error_wins "!!!" "???" (by decide) (by decide)⟩

/-- C6: `Config::contain` is the in-order find-first scan of the table:
absence exactly when no entry matches, and a returned entry is a table
entry that matches while all earlier entries fail to match.  The scan
is pure: the table is a value and is not modified. -/
theorem claim6_table_first_match (c : Config) (w : String) (b : Bool) :
    (Config.contain c w b = none ↔ ∀ d ∈ c.domains, d.contain w b = none) ∧
    (∀ e : Domain, Config.contain c w b = some e ↔
      ∃ i : Nat, c.domains[i]? = some e ∧ (e.contain w b).isSome = true ∧
        ∀ (j : Nat) (d' : Domain), j < i → c.domains[j]? = some d' →
          d'.contain w b = none) := by
  constructor
  · rw [Config.contain_eq_firstMatch]
    exact firstMatch_eq_none_iff w b c.domains
  · intro e
    rw [Config.contain_eq_firstMatch]
    exact firstMatch_eq_some_iff w b e c.domains

/-- Table used by the claim C6 witness: a non-matching first entry and
two entries matching `g.com`, of which the earlier one must win. -/
def cfgW6 : Config :=
  { domains := [{ old := urlHttps "p.net", new := urlHttps "q.net" },
                { old := urlHttps "g.com", new := urlHttps "h.com" },
                { old := urlHttps "g.com", new := urlHttps "k.com" }] }

/-- Witness for C6: on `cfgW6` the scan returns the first of the two
`g.com` entries, at an index all of whose predecessors fail. -/
theorem claim6_table_first_match_witness :
    ∃ i : Nat,
      cfgW6.domains[i]? = some { old := urlHttps "g.com", new := urlHttps "h.com" } ∧
      (Domain.contain { old := urlHttps "g.com", new := urlHttps "h.com" } "g.com" true).isSome
        = true ∧
      ∀ (j : Nat) (d' : Domain), j < i → cfgW6.domains[j]? = some d' →
        d'.contain "g.com" true = none :=
  ((claim6_table_first_match cfgW6 "g.com" true).2
    { old := urlHttps "g.com", new := urlHttps "h.com" }).mp (by decide)

/-- C7: `extract_old_domains` tokenises like the rewrite pipeline and
collects, in token order, the first old-host-matching entry of every
token that has one (duplicates preserved); no token matching gives the
empty list. -/
theorem claim7_extract_order (c : Config) (text : String) :
    extract_old_domains c text =
      (splitAsciiWhitespace text).filterMap (fun w => firstMatch w true c.domains) ∧
    ((∀ w ∈ splitAsciiWhitespace text, Config.contain c w true = none) →
      extract_old_domains c text = []) := by
  have h1 : extract_old_domains c text =
      (splitAsciiWhitespace text).filterMap (fun w => firstMatch w true c.domains) := by
    unfold extract_old_domains
    simp only [Config.contain_eq_firstMatch]
  refine ⟨h1, ?_⟩
  intro hall
  rw [h1]
  rw [List.filterMap_eq_nil_iff]
  intro w hw
  rw [← Config.contain_eq_firstMatch]
  exact hall w hw

/-- Table used by the claim C7 witness. -/
def cfgW7 : Config :=
  { domains := [{ old := urlHttps "u.com", new := urlHttps "v.com" }] }

/-- Witness for C7: the matching token of a three-token text yields the
single matched entry. -/
theorem claim7_extract_order_witness :
    extract_old_domains cfgW7 "x u.com y" =
      [{ old := urlHttps "u.com", new := urlHttps "v.com" }] :=
  ((claim7_extract_order cfgW7 "x u.com y").1).trans (by decide)

/-- Entry whose new URL has no host, used by the C1 counterexample. -/
def cfg1 : Config :=
  { domains := [{ old := urlHttps "a.com", new := mailtoUrl },
                { old := urlHttps "a.com", new := urlHttps "b.com" }] }

/-- Counterexample to C1 as stated: with a table whose FIRST entry
matching `a.com` has a host-less new URL, `parse_string` does not
rewrite by that first matching entry (which would leave the token
alone); it rewrites by the later entry, so the literal per-token
transform of C1 disagrees with the code. -/
theorem claim1_counterexample :
    ¬(("a.com" : String) = "") ∧
    parse_string cfg1 "a.com" ≠
      some (joinSpace ((splitAsciiWhitespace "a.com").map (claimOneToken cfg1.domains))) := by
  constructor
  · decide
  · decide

/-- Table used by the claim C1 witness. -/
def cfgW1 : Config :=
  { domains := [{ old := urlHttps "youtube.com", new := urlHttps "piped.kavin.rocks" }] }

/-- C1 as amended: on non-empty text and a well-formed table,
`parse_string` splits the text on ASCII whitespace, rewrites every
token by the first entry whose old host matches it AND whose new URL
has a host (replacing only the URL's host, keeping scheme, userinfo,
port, path, query, fragment), leaves all other tokens unchanged, and
joins the results with single spaces. -/
theorem claim1_rewrite_pipeline (c : Config) (text : String)
    (hwf : Config.wf c = true) (hne : ¬ text = "") :
    parse_string c text =
      some (joinSpace ((splitAsciiWhitespace text).map (specRewriteToken c.domains))) := by
  have hmap := processWords_eq_map c.domains (specRewriteToken c.domains)
    (splitAsciiWhitespace text) (fun w _ => processWord_eq_spec w c.domains hwf)
  rw [parse_string_of_ne c text hne, hmap]
  rfl

/-- Witness for the amended C1 on a bare-domain token with a path. -/
theorem claim1_rewrite_pipeline_witness :
    Config.wf cfgW1 = true ∧ ¬(("hi, youtube.com/something" : String) = "") ∧
    parse_string cfgW1 "hi, youtube.com/something" =
      some (joinSpace ((splitAsciiWhitespace "hi, youtube.com/something").map
        (specRewriteToken cfgW1.domains))) :=
  ⟨by decide, by decide,
   claim1_rewrite_pipeline cfgW1 "hi, youtube.com/something" (by decide) (by decide)⟩

/-- Table used by the claim C4 witness. -/
def cfgW4 : Config :=
  { domains := [{ old := urlHttps "a.org", new := urlHttps "b.org" }] }

/-- C4: for every text and every well-formed table (the `url` crate's
type invariant: every held URL has a valid host when present), the
`unwrap` on `set_host` inside `parse_string` cannot panic: the pipeline
always completes with a result. -/
theorem claim4_set_host_no_panic (c : Config) (text : String)
    (hwf : Config.wf c = true) :
    (parse_string c text).isSome = true := by
  by_cases he : text = ""
  · subst he
    rfl
  · rw [parse_string_of_ne c text he]
    have hmap := processWords_eq_map c.domains (specRewriteToken c.domains)
      (splitAsciiWhitespace text) (fun w _ => processWord_eq_spec w c.domains hwf)
    rw [hmap]
    rfl

/-- Witness for C4 on a text with a matching, host-substituted token. -/
theorem claim4_set_host_no_panic_witness :
    Config.wf cfgW4 = true ∧
    (parse_string cfgW4 "see https://a.org/path now").isSome = true :=
  ⟨by decide, claim4_set_host_no_panic cfgW4 "see https://a.org/path now" (by decide)⟩

/-- Counterexample to C8 as stated: even with an empty table (so no
token can match anything), `parse_string` collapses the double space of
`"a  a"` to a single space — the text is NOT left unchanged. -/
theorem claim8_counterexample :
    (∀ w ∈ splitAsciiWhitespace "a  a",
      Config.contain (Config.mk []) w true = none) ∧
    parse_string (Config.mk []) "a  a" = some "a a" ∧
    ¬(("a a" : String) = "a  a") := by
  refine ⟨by decide, by decide, by decide⟩

/-- C8 as amended: when every token either matches no entry under
old-host-only matching or has a host that is a new host and not an old
host of the table, `parse_string` returns the text unchanged up to
whitespace normalisation (its tokens joined by single spaces). -/
theorem claim8_new_hosts_unchanged (c : Config) (text : String)
    (h : ∀ w ∈ splitAsciiWhitespace text,
      Config.contain c w true = none ∨ tokenOnlyNewHost c w = true) :
    parse_string c text = some (joinSpace (splitAsciiWhitespace text)) := by
  by_cases he : text = ""
  · subst he
    have hj : joinSpace (splitAsciiWhitespace "") = "" := by decide
    rw [hj]
    rfl
  · have hptok : ∀ w ∈ splitAsciiWhitespace text,
        processWord c.domains w = some w := by
      intro w hw
      apply processWord_of_no_match
      intro d hd
      rcases h w hw with hnone | honly
      · rw [Config.contain_eq_firstMatch] at hnone
        exact (firstMatch_eq_none_iff w true c.domains).mp hnone d hd
      · cases hc : d.contain w true with
        | none => rfl
        | some u =>
          exfalso
          rcases (Domain.contain_characterization d w true u).mp hc with
            ⟨hp, hh, hhost, hcase⟩
          rcases hcase with ho | ⟨hb, _⟩
          · simp only [tokenOnlyNewHost, hp, Url.host_str, hhost,
              decide_eq_true_eq] at honly
            exact honly.2 (List.mem_filterMap.mpr ⟨d, hd, ho⟩)
          · cases hb
    rw [parse_string_of_ne c text he,
      processWords_eq_map c.domains (fun w => w) (splitAsciiWhitespace text) hptok]
    simp

/-- Table used by the claim C8 witness: `new8.com` occurs only as a new
host. -/
def cfgW8 : Config :=
  { domains := [{ old := urlHttps "old8.com", new := urlHttps "new8.com" }] }

/-- Witness for the amended C8: a text of an already-rewritten link and
a neutral token passes through (already in normalised whitespace). -/
theorem claim8_new_hosts_unchanged_witness :
    parse_string cfgW8 "new8.com plain" =
      some (joinSpace (splitAsciiWhitespace "new8.com plain")) :=
  claim8_new_hosts_unchanged cfgW8 "new8.com plain" (by decide)

/-- First entry of the C9 table: matches `c.org` but its new URL has no
host. -/
def d91 : Domain := { old := urlHttps "c.org", new := mailtoUrl }

/-- Second entry of the C9 table: also matches `c.org`, with a host. -/
def d92 : Domain := { old := urlHttps "c.org", new := urlHttps "d.org" }

/-- Table of the C9 counterexample. -/
def cfg9 : Config := { domains := [d91, d92] }

/-- Counterexample to C9 as stated: the token `c.org` matches the entry
`d91`, whose new URL has no host, yet `parse_string` does not emit the
token unchanged — a later matching entry rewrites it. -/
theorem claim9_counterexample :
    d91 ∈ cfg9.domains ∧ (d91.contain "c.org" true).isSome = true ∧
    d91.new.host_str = none ∧
    parse_string cfg9 "c.org" = some "https://d.org/" ∧
    ¬(parse_string cfg9 "c.org" = some "c.org") := by
  refine ⟨by decide, by decide, by decide, by decide, by decide⟩

/-- C9 as amended: an entry whose new URL has no host never rewrites a
token and never panics: the per-token loop behaves exactly as if all
such entries were removed from the table (so the token is emitted
unchanged only when no remaining entry matches it), and on well-formed
tables the loop always completes. -/
theorem claim9_hostless_new_skipped (ds : List Domain) (w : String) :
    processWord ds w =
      processWord (ds.filter (fun d => d.new.host_str.isSome)) w ∧
    (ds.all Domain.wf = true → (processWord ds w).isSome = true) := by
  constructor
  · exact processWord_skip_hostless w ds
  · intro hwf
    rw [processWord_eq_spec w ds hwf]
    rfl

/-- Witness for the amended C9 on the two-entry table of `cfg9`. -/
theorem claim9_hostless_new_skipped_witness :
    processWord cfg9.domains "c.org" =
      processWord (cfg9.domains.filter (fun d => d.new.host_str.isSome)) "c.org" ∧
    (processWord cfg9.domains "c.org").isSome = true :=
  ⟨(claim9_hostless_new_skipped cfg9.domains "c.org").1,
   (claim9_hostless_new_skipped cfg9.domains "c.org").2 (by decide)⟩

/-- `Result::unwrap` on the `Domain::try_from` results building the
default table (all six literals are valid, so the error arm is dead). -/
def unwrapDomain (x : Except DomainChangerError Domain) : Domain :=
  match x with
  | .ok d => d
  | .error _ => { old := urlHttps "unreachable.invalid", new := urlHttps "unreachable.invalid" }

/-- `src/types/config.rs`: `Config::default`, the built-in table of
privacy-frontend mappings. -/
def defaultConfig : Config :=
  { domains := [
      unwrapDomain (Domain.tryFrom ("https://youtube.com/", "https://piped.kavin.rocks/")),
      unwrapDomain (Domain.tryFrom ("https://www.youtube.com/", "https://piped.kavin.rocks/")),
      unwrapDomain (Domain.tryFrom ("https://youtu.be/", "https://piped.kavin.rocks/")),
      unwrapDomain (Domain.tryFrom ("https://t.co/", "https://nitter.net/")),
      unwrapDomain (Domain.tryFrom ("https://twitter.com/", "https://nitter.net/")),
      unwrapDomain (Domain.tryFrom ("https://reddit.com/", "https://libredd.it/"))] }

/-- Sanity: the unit test `parse_string_test` of `src/lib.rs` holds in
the model verbatim. -/
theorem sanity_parse_string_test :
    parse_string defaultConfig "" = some "" ∧
    parse_string defaultConfig "Hello, world" = some "Hello, world" ∧
    parse_string defaultConfig "Hello https://randomdooomain.com" =
      some "Hello https://randomdooomain.com" ∧
    parse_string defaultConfig "hi, youtube.com/something" =
      some "hi, https://piped.kavin.rocks/something" ∧
    parse_string defaultConfig "hi, youtube.com" =
      some "hi, https://piped.kavin.rocks/" := by
  refine ⟨rfl, by decide, by decide, by decide, by decide⟩

/-- Sanity: the `extract_old_domains` doctest of `src/lib.rs` holds in
the model: the YouTube and Twitter entries are returned in token
order, and a matchless text yields the empty list. -/
theorem sanity_extract_old_domains_doctest :
    extract_old_domains defaultConfig
        "Hi i hate youtube.com and https://twitter.com what about you?" =
      [unwrapDomain (Domain.tryFrom ("https://youtube.com/", "https://piped.kavin.rocks/")),
       unwrapDomain (Domain.tryFrom ("https://twitter.com/", "https://nitter.net/"))] ∧
    extract_old_domains defaultConfig "Hello, World!" = [] := by
  refine ⟨by decide, by decide⟩

/-- Sanity: the `Config::contain` doctest of `src/types/config.rs`
holds in the model. -/
theorem sanity_config_contain_doctest :
    Config.contain defaultConfig "google.com" true = none ∧
    (Config.contain defaultConfig "youtube.com" true).isSome = true ∧
    (Config.contain defaultConfig "https://libredd.it" false).isSome = true := by
  refine ⟨by decide, by decide, by decide⟩

end DomainChanger
